import Mathlib

/-!
Verification of the coiled-dask training material.

The repository is a set of instructional notebooks.  Two kinds of artefacts are
verified here:

* actual notebook code (the toy partitioned-dataframe operations
  `whole_frame` / `df_count` / `df_sum`, and the Monte-Carlo sampler
  `multi_sample`), embedded directly from the notebook cells;

* the distributed task scheduler that the notebooks narrate but never
  implement (client / scheduler / worker / nanny, memory-pressure policy,
  fault recovery).  The spec defines this system from scratch; since no code
  for it exists in the repository, those parts are modelled from the spec,
  and each such definition is marked `Modelled from the spec:`.
-/

/-! ## Toy partitioned dataframe (notebook code, part_001) -/

/-- A row of the toy dataframe: a mapping from column names to integer values,
mirroring the toy pandas frames built in the notebook. -/
abbrev Row := String → Int

/-- A dataframe partition: a list of rows ("each partition being its own
dataframe"). -/
abbrev Partition := List Row

/-- `whole_frame(df)`, from the notebook:
`def whole_frame(df): return pd.concat([p for p in df])` —
the concatenation of all partitions into one frame. -/
def whole_frame (df : List Partition) : Partition :=
  df.flatten

/-- `df_count(df)`, from the notebook:
`def df_count(df): return sum(p.shape[0] for p in df)` —
the per-partition row counts, summed. -/
def df_count (df : List Partition) : Nat :=
  (df.map List.length).sum

/-- `p[col].sum()`: the sum of column `col` over the rows of one partition. -/
def col_sum (p : Partition) (col : String) : Int :=
  (p.map (fun r => r col)).sum

/-- `df_sum(df, col)`, from the notebook:
`def df_sum(df, col): return sum(p[col].sum() for p in df)` —
the per-partition column sums, summed. -/
def df_sum (df : List Partition) (col : String) : Int :=
  (df.map (fun p => col_sum p col)).sum

/-! ## Monte-Carlo sampler (notebook code, part_001) -/

/-- `multi_sample(n)`, from the notebook:

```
def multi_sample(n):
    total = 0
    for i in range(n):
        x = random.uniform(0, 1)
        y = random.uniform(0, 1)
        d = x*x + y*y
        if d < 1:
            total += 1
    return total
```

The two `random.uniform(0, 1)` calls of iteration `i` are abstracted as an
arbitrary stream `draws : Nat → ℚ × ℚ`, so every outcome of the random draws
is covered. -/
def multi_sample (draws : Nat → ℚ × ℚ) (n : Nat) : Nat :=
  (List.range n).foldl
    (fun total i =>
      let x := (draws i).1
      let y := (draws i).2
      let d := x * x + y * y
      if d < 1 then total + 1 else total)
    0

/-- The derived pi estimate `4 * total / n` used throughout the notebook
(`hits/1e5*4`, `4 * bunch_of_samples(1000)`), over the rationals. -/
def pi_estimate (draws : Nat → ℚ × ℚ) (n : Nat) : ℚ :=
  4 * (multi_sample draws n : ℚ) / (n : ℚ)

/-! ## Helper lemmas -/

/-- A left fold whose step increases the accumulator by at most one gains at
most the length of the list. -/
theorem foldl_le_add_length {α : Type} (f : Nat → α → Nat)
    (hf : ∀ a i, f a i ≤ a + 1) :
    ∀ (l : List α) (a : Nat), l.foldl f a ≤ a + l.length := by
  intro l
  induction l with
  | nil => intro a; simp
  | cons x xs ih =>
    intro a
    calc (x :: xs).foldl f a = xs.foldl f (f a x) := rfl
    _ ≤ f a x + xs.length := ih (f a x)
    _ ≤ (a + 1) + xs.length := by
        exact Nat.add_le_add_right (hf a x) _
    _ = a + (x :: xs).length := by simp [Nat.add_assoc, Nat.add_comm 1]

/-! ## Claim theorems for the notebook code -/

/-- C9: partition-wise aggregation agrees with aggregation over the
concatenated whole frame: `df_count df` equals the row count of
`whole_frame df`, and `df_sum df col` equals the sum of column `col` over
`whole_frame df` — aggregation is a homomorphism over partition
concatenation. -/
theorem df_agg_is_concat_homomorphism (df : List Partition) (col : String) :
    df_count df = (whole_frame df).length ∧
    df_sum df col = col_sum (whole_frame df) col := by
  constructor
  · simp [df_count, whole_frame, List.length_flatten]
  · simp only [df_sum, whole_frame, col_sum, List.map_flatten, List.sum_flatten]
    induction df with
    | nil => simp
    | cons p ps ih => simp [ih]

/-- C10: for every `n ≥ 0` and every outcome of the random draws,
`multi_sample` returns a total with `0 ≤ total ≤ n` (each loop iteration adds
at most 1), so for `n > 0` the derived pi estimate `4*total/n` lies in
`[0, 4]`. -/
theorem multi_sample_total_bounded (draws : Nat → ℚ × ℚ) (n : Nat) :
    0 ≤ multi_sample draws n ∧ multi_sample draws n ≤ n ∧
    (0 < n → 0 ≤ pi_estimate draws n ∧ pi_estimate draws n ≤ 4) := by
  have hle : multi_sample draws n ≤ n := by
    have := foldl_le_add_length
      (fun total i =>
        let x := (draws i).1
        let y := (draws i).2
        let d := x * x + y * y
        if d < 1 then total + 1 else total)
      (by
        intro a i
        dsimp only
        split <;> omega)
      (List.range n) 0
    simpa [multi_sample] using this
  refine ⟨Nat.zero_le _, hle, ?_⟩
  intro hn
  have hnQ : (0 : ℚ) < (n : ℚ) := by exact_mod_cast hn
  constructor
  · apply div_nonneg _ (le_of_lt hnQ)
    positivity
  · rw [pi_estimate, div_le_iff₀ hnQ]
    have : (multi_sample draws n : ℚ) ≤ (n : ℚ) := by exact_mod_cast hle
    nlinarith

/-- Witness for C10 at `n = 4` with all draws at `(1/2, 1/2)`. -/
theorem multi_sample_total_bounded_witness :
    0 < 4 ∧
    (0 ≤ pi_estimate (fun _ => ((1 : ℚ)/2, (1 : ℚ)/2)) 4 ∧
      pi_estimate (fun _ => ((1 : ℚ)/2, (1 : ℚ)/2)) 4 ≤ 4) :=
  ⟨by decide,
    (multi_sample_total_bounded (fun _ => ((1 : ℚ)/2, (1 : ℚ)/2)) 4).2.2
      (by decide)⟩

/-! ## Worker memory-pressure policy (spec §4.3)

No scheduler/worker code exists in the repository (the notebooks only narrate
the policy), so this component is modelled from the spec. -/

/-- Modelled from the spec: the escalating actions of the Worker
memory-pressure policy (§4.3).  `normal` is the behaviour below every
threshold. -/
inductive MemAction
  | normal
  | spillLRU
  | spillAll
  | pause
  | terminate
  deriving DecidableEq, Repr

/-- Modelled from the spec: the memory-pressure policy as a function of
memory used and the configured memory budget.  "usage ≥ p% of budget" is
rendered as `p * budget ≤ 100 * used` to stay in exact arithmetic. -/
def memoryAction (used budget : Nat) : MemAction :=
  if 95 * budget ≤ 100 * used then .terminate
  else if 80 * budget ≤ 100 * used then .pause
  else if 70 * budget ≤ 100 * used then .spillAll
  else if 60 * budget ≤ 100 * used then .spillLRU
  else .normal

/-- Modelled from the spec: one entry of a Worker's local key→result store,
carrying the size estimate and a last-use clock used by the eviction
policy. -/
structure StoredItem where
  key : String
  size : Nat
  lastUsed : Nat
  deriving DecidableEq, Repr

/-- Modelled from the spec: the Worker state the memory policy acts on —
configured memory budget, current usage, the in-memory store, and whether
the Worker is registered with the Scheduler. -/
structure WorkerState where
  memBudget : Nat
  memUsed : Nat
  store : List StoredItem
  registered : Bool

/-- Modelled from the spec: the victim of a spill at the ≥60% stage — the
least-recently-used in-memory result. -/
def lruVictim (s : List StoredItem) : Option StoredItem :=
  s.argmin StoredItem.lastUsed

/-- Modelled from the spec: the victim of a spill at the ≥70% stage — the
largest object, regardless of recency. -/
def largestVictim (s : List StoredItem) : Option StoredItem :=
  s.argmax StoredItem.size

/-- Modelled from the spec: what the Worker spills next under the current
memory action: least-recently-used at the 60% stage, largest-first at the
70% stage, nothing otherwise (pausing and terminating do not name a spill
victim). -/
def spillVictim (w : WorkerState) : Option StoredItem :=
  match memoryAction w.memUsed w.memBudget with
  | .spillLRU => lruVictim w.store
  | .spillAll => largestVictim w.store
  | _ => none

/-- Modelled from the spec: whether the Worker accepts new task assignments;
at ≥80% it reports "paused" and refuses, and a self-terminating Worker
accepts nothing either. -/
def acceptsNewTasks (w : WorkerState) : Bool :=
  match memoryAction w.memUsed w.memBudget with
  | .pause => false
  | .terminate => false
  | _ => true

/-- Modelled from the spec: the fresh Worker the Nanny starts after a
self-termination at ≥95%: same configuration (memory budget), empty state,
re-registered with the Scheduler. -/
def nannyRestart (w : WorkerState) : WorkerState :=
  { memBudget := w.memBudget, memUsed := 0, store := [], registered := true }

/-- C1: the memory-pressure policy, as a function of the fraction of the
budget in use, takes exactly the spec's actions in order: below 60% none;
in [60%, 70%) it spills the least-recently-used result; in [70%, 80%) it
spills regardless of recency, largest objects first; in [80%, 95%) it
refuses new task assignments (paused); at ≥95% it self-terminates and the
Nanny restarts a fresh Worker with the same budget, empty store, and a new
registration. -/
theorem memory_pressure_policy (w : WorkerState) :
    (100 * w.memUsed < 60 * w.memBudget →
      memoryAction w.memUsed w.memBudget = .normal) ∧
    (60 * w.memBudget ≤ 100 * w.memUsed ∧ 100 * w.memUsed < 70 * w.memBudget →
      memoryAction w.memUsed w.memBudget = .spillLRU ∧
      ∀ v, spillVictim w = some v →
        v ∈ w.store ∧ ∀ u ∈ w.store, v.lastUsed ≤ u.lastUsed) ∧
    (70 * w.memBudget ≤ 100 * w.memUsed ∧ 100 * w.memUsed < 80 * w.memBudget →
      memoryAction w.memUsed w.memBudget = .spillAll ∧
      ∀ v, spillVictim w = some v →
        v ∈ w.store ∧ ∀ u ∈ w.store, u.size ≤ v.size) ∧
    (80 * w.memBudget ≤ 100 * w.memUsed ∧ 100 * w.memUsed < 95 * w.memBudget →
      memoryAction w.memUsed w.memBudget = .pause ∧ acceptsNewTasks w = false) ∧
    (95 * w.memBudget ≤ 100 * w.memUsed →
      memoryAction w.memUsed w.memBudget = .terminate ∧
      acceptsNewTasks w = false ∧
      (nannyRestart w).store = [] ∧
      (nannyRestart w).memUsed = 0 ∧
      (nannyRestart w).registered = true ∧
      (nannyRestart w).memBudget = w.memBudget) := by
  refine ⟨?_, ?_, ?_, ?_, ?_⟩
  · intro h
    simp only [memoryAction]
    rw [if_neg (by omega), if_neg (by omega), if_neg (by omega), if_neg (by omega)]
  · rintro ⟨h1, h2⟩
    have hact : memoryAction w.memUsed w.memBudget = .spillLRU := by
      simp only [memoryAction]
      rw [if_neg (by omega), if_neg (by omega), if_neg (by omega), if_pos (by omega)]
    refine ⟨hact, ?_⟩
    intro v hv
    rw [spillVictim, hact] at hv
    have hv' : v ∈ List.argmin StoredItem.lastUsed w.store := hv
    exact ⟨List.argmin_mem hv', fun u hu => List.le_of_mem_argmin hu hv'⟩
  · rintro ⟨h1, h2⟩
    have hact : memoryAction w.memUsed w.memBudget = .spillAll := by
      simp only [memoryAction]
      rw [if_neg (by omega), if_neg (by omega), if_pos (by omega)]
    refine ⟨hact, ?_⟩
    intro v hv
    rw [spillVictim, hact] at hv
    have hv' : v ∈ List.argmax StoredItem.size w.store := hv
    exact ⟨List.argmax_mem hv', fun u hu => List.le_of_mem_argmax hu hv'⟩
  · rintro ⟨h1, h2⟩
    have hact : memoryAction w.memUsed w.memBudget = .pause := by
      simp only [memoryAction]
      rw [if_neg (by omega), if_pos (by omega)]
    exact ⟨hact, by rw [acceptsNewTasks, hact]⟩
  · intro h
    have hact : memoryAction w.memUsed w.memBudget = .terminate := by
      simp only [memoryAction]
      rw [if_pos (by omega)]
    exact ⟨hact, by rw [acceptsNewTasks, hact], rfl, rfl, rfl, rfl⟩

/-- Witness for C1 on a 100-unit budget: 65 used spills LRU, 75 spills
largest-first, 85 pauses, 96 terminates. -/
theorem memory_pressure_policy_witness :
    (60 * 100 ≤ 100 * 65 ∧ 100 * 65 < 70 * 100 ∧
      memoryAction 65 100 = .spillLRU) ∧
    (memoryAction 75 100 = .spillAll) ∧
    (memoryAction 85 100 = .pause) ∧
    (95 * 100 ≤ 100 * 96 ∧ memoryAction 96 100 = .terminate) :=
  ⟨⟨by decide, by decide,
      ((memory_pressure_policy ⟨100, 65, [], true⟩).2.1 ⟨by decide, by decide⟩).1⟩,
    ((memory_pressure_policy ⟨100, 75, [], true⟩).2.2.1 ⟨by decide, by decide⟩).1,
    ((memory_pressure_policy ⟨100, 85, [], true⟩).2.2.2.1 ⟨by decide, by decide⟩).1,
    ⟨by decide, ((memory_pressure_policy ⟨100, 96, [], true⟩).2.2.2.2 (by decide)).1⟩⟩

/-! ## Task keys and `submit` deduplication (spec §4.1)

No client code exists in the repository, so `submit` key generation is
modelled from the spec. -/

/-- Modelled from the spec: a task key is a content fingerprint of
`(function, args)` under the default `pure=True`, or a fresh random key
under `pure=False`. -/
inductive TaskKey
  | fingerprint (fn : String) (args : List Int)
  | randomKey (id : Nat)
  deriving DecidableEq, Repr

/-- Modelled from the spec: the client-side state `submit` threads — the
source of fresh random keys for `pure=False` submissions. -/
structure ClientState where
  nextRandom : Nat
  deriving DecidableEq, Repr

/-- Modelled from the spec: `submit(fn, *args, pure=True)` registers a task
under a key derived from a content fingerprint of `(function, args)`;
with `pure=False` a fresh random key is generated so repeated calls are not
deduplicated. -/
def submit (fn : String) (args : List Int) (pureFlag : Bool)
    (s : ClientState) : TaskKey × ClientState :=
  if pureFlag then (TaskKey.fingerprint fn args, s)
  else (TaskKey.randomKey s.nextRandom, { nextRandom := s.nextRandom + 1 })

/-- C2: submitting the same `(f, x)` twice with the default `pure=True`
yields two Futures with the same key — a content fingerprint of
`(function, args)` — while two `pure=False` submissions of the same `(f, x)`
always get different (fresh random) keys. -/
theorem submit_pure_dedup_impure_fresh (fn : String) (args : List Int)
    (s : ClientState) :
    (submit fn args true s).1 =
      (submit fn args true (submit fn args true s).2).1 ∧
    (submit fn args true s).1 = TaskKey.fingerprint fn args ∧
    (submit fn args false s).1 ≠
      (submit fn args false (submit fn args false s).2).1 := by
  refine ⟨rfl, rfl, ?_⟩
  simp [submit]

/-! ## Nanny supervision (spec §4.4)

No nanny code exists in the repository (the notebooks only demonstrate the
behaviour interactively), so supervision is modelled from the spec. -/

/-- Modelled from the spec: the configuration a Nanny passes to the Worker
processes it spawns (worker registration message fields, §6). -/
structure WorkerConfig where
  address : String
  coreCount : Nat
  memoryLimit : Nat
  deriving DecidableEq, Repr

/-- Modelled from the spec: one supervised Worker process slot — whether the
Nanny process is alive, whether its child Worker process is alive, the
Worker's configuration, the Worker's in-memory store, and whether the
current Worker process is registered with the Scheduler. -/
structure NannyState where
  nannyAlive : Bool
  workerAlive : Bool
  config : WorkerConfig
  workerStore : List StoredItem
  workerRegistered : Bool
  deriving DecidableEq, Repr

/-- Modelled from the spec: the events a supervision slot reacts to — the
child Worker exits unexpectedly, or the Nanny process itself dies. -/
inductive SupEvent
  | workerUnexpectedExit
  | nannyDies
  deriving DecidableEq, Repr

/-- Modelled from the spec: one supervision step.  On unexpected child exit
a live Nanny immediately spawns a replacement Worker with the same
configuration and empty state and registers it with the Scheduler; if the
Nanny is dead the Worker is unsupervised, so it stays dead and unregistered.
Nothing revives a dead Nanny. -/
def nannyStep (s : NannyState) : SupEvent → NannyState
  | .workerUnexpectedExit =>
    if s.nannyAlive then
      { s with workerAlive := true, workerStore := [], workerRegistered := true }
    else
      { s with workerAlive := false, workerRegistered := false }
  | .nannyDies => { s with nannyAlive := false }

/-- Modelled from the spec: a supervision slot driven by a sequence of
events. -/
def nannySteps (s : NannyState) (evs : List SupEvent) : NannyState :=
  evs.foldl nannyStep s

/-- Once both the Nanny and its Worker are dead, no event sequence revives
either: a dead Nanny never restarts anything. -/
theorem nanny_dead_stays_dead (s : NannyState)
    (hn : s.nannyAlive = false) (hw : s.workerAlive = false) :
    ∀ evs : List SupEvent,
      (nannySteps s evs).nannyAlive = false ∧
      (nannySteps s evs).workerAlive = false := by
  intro evs
  induction evs generalizing s with
  | nil => exact ⟨hn, hw⟩
  | cons e rest ih =>
    have hstep : (nannyStep s e).nannyAlive = false ∧
        (nannyStep s e).workerAlive = false := by
      cases e with
      | workerUnexpectedExit => simp [nannyStep, hn, hw]
      | nannyDies => simp [nannyStep, hn, hw]
    exact ih _ hstep.1 hstep.2

/-- C7: on an unexpected exit of a supervised (live-Nanny) Worker child, the
Nanny immediately spawns a replacement Worker with the same configuration
and empty state and registers it with the Scheduler; if the Nanny itself is
dead, its Worker is unsupervised — the exited Worker is not restarted by any
later event sequence. -/
theorem nanny_restarts_worker (s : NannyState) :
    (s.nannyAlive = true →
      (nannyStep s .workerUnexpectedExit).workerAlive = true ∧
      (nannyStep s .workerUnexpectedExit).workerStore = [] ∧
      (nannyStep s .workerUnexpectedExit).workerRegistered = true ∧
      (nannyStep s .workerUnexpectedExit).config = s.config) ∧
    (s.nannyAlive = false →
      ∀ evs : List SupEvent,
        (nannySteps (nannyStep s .workerUnexpectedExit) evs).workerAlive
          = false) := by
  constructor
  · intro h
    simp [nannyStep, h]
  · intro h evs
    have h1 : (nannyStep s .workerUnexpectedExit).nannyAlive = false := by
      simp [nannyStep, h]
    have h2 : (nannyStep s .workerUnexpectedExit).workerAlive = false := by
      simp [nannyStep, h]
    exact (nanny_dead_stays_dead _ h1 h2 evs).2

/-- Witness for C7 on a concrete slot (live Nanny, then dead Nanny). -/
theorem nanny_restarts_worker_witness :
    (NannyState.mk true false ⟨"w1", 4, 100⟩ [] false).nannyAlive = true ∧
    (nannyStep (NannyState.mk true false ⟨"w1", 4, 100⟩ [] false)
      .workerUnexpectedExit).workerAlive = true ∧
    (nannySteps
      (nannyStep (NannyState.mk false true ⟨"w1", 4, 100⟩ [] true)
        .workerUnexpectedExit)
      [.workerUnexpectedExit, .nannyDies]).workerAlive = false :=
  ⟨rfl,
    ((nanny_restarts_worker
      (NannyState.mk true false ⟨"w1", 4, 100⟩ [] false)).1 rfl).1,
    (nanny_restarts_worker
      (NannyState.mk false true ⟨"w1", 4, 100⟩ [] true)).2 rfl
      [.workerUnexpectedExit, .nannyDies]⟩

/-! ## Scheduler task states (spec §3, §4.2)

No scheduler code exists in the repository, so the per-task state machine,
including its failure handling, is modelled from the spec. -/

/-- Modelled from the spec: the per-task scheduler states
`pending | waiting | processing | memory | error | released`; an `error`
carries its reason (e.g. `"suspicious-task"`). -/
inductive TState
  | pending
  | waiting
  | processing
  | memory
  | error (reason : String)
  | released
  deriving DecidableEq, Repr

/-- Modelled from the spec: the Scheduler events that drive one task's
state: its dependencies become satisfied, it is assigned to a worker, the
worker reports completion or a user-code error, the sole worker holding its
result is lost (data lost, task released), and a released task whose
dependencies are still reconstructible is re-queued. -/
inductive SchedEvent
  | depsSatisfied
  | assignWorker
  | taskFinished
  | taskErred
  | workerLost
  | requeue
  deriving DecidableEq, Repr

/-- Modelled from the spec: one serialized step of the Scheduler's per-task
state machine, including the worker-loss failure handling of §4.2 (a
`memory` task whose sole holder died is `released`, then re-queued back to
`waiting` when its dependencies can be reconstructed). -/
def schedStep (s : TState) : SchedEvent → TState
  | .depsSatisfied => if s = .pending then .waiting else s
  | .assignWorker => if s = .waiting then .processing else s
  | .taskFinished => if s = .processing then .memory else s
  | .taskErred => if s = .processing then .error "task-erred" else s
  | .workerLost => if s = .memory then .released else s
  | .requeue => if s = .released then .waiting else s

/-- Modelled from the spec: a task driven from a state through a sequence of
scheduler events. -/
def schedTrace (s : TState) (evs : List SchedEvent) : TState :=
  evs.foldl schedStep s

/-- The claimed forward pipeline `pending → waiting → processing → memory`
(with `error` as alternative terminal): positions along the pipeline;
`released` is off the claimed pipeline. -/
def pipelineRank : TState → Option Nat
  | .pending => some 0
  | .waiting => some 1
  | .processing => some 2
  | .memory => some 3
  | .error _ => some 3
  | .released => none

/-- The claim's "only advances" relation: both states sit on the claimed
pipeline and the step does not decrease the position. -/
def Advances (s t : TState) : Prop :=
  ∃ i j, pipelineRank s = some i ∧ pipelineRank t = some j ∧ i ≤ j

/-- C8 counterexample: the spec's own failure handling moves a task
backwards.  A task reaches `memory` (observed by a first query); losing the
sole worker holding its result releases and re-queues it, so a second query
observes `waiting` — a reverse transition along the claimed pipeline. -/
theorem sched_state_can_move_backwards :
    schedTrace .pending [.depsSatisfied, .assignWorker, .taskFinished]
      = .memory ∧
    schedTrace .pending
      [.depsSatisfied, .assignWorker, .taskFinished, .workerLost, .requeue]
      = .waiting ∧
    ¬ Advances .memory .waiting ∧
    ¬ Advances .memory (schedStep .memory .workerLost) := by
  refine ⟨rfl, rfl, ?_, ?_⟩
  · rintro ⟨i, j, hi, hj, hij⟩
    simp only [pipelineRank, Option.some.injEq] at hi hj
    omega
  · rintro ⟨i, j, hi, hj, hij⟩
    simp only [schedStep, pipelineRank, reduceIte] at hi hj
    exact Option.noConfusion hj

/-- C8 amended: in the absence of the worker-loss events (`workerLost`,
`requeue`), every step from a state on the claimed pipeline only advances
along `pending → waiting → processing → memory` (or `→ error`), so two
successive queries never observe a reverse transition. -/
theorem sched_state_monotone_without_worker_loss (s : TState) (e : SchedEvent)
    (hs : pipelineRank s ≠ none)
    (he : e ≠ .workerLost ∧ e ≠ .requeue) :
    Advances s (schedStep s e) := by
  cases s <;> cases e <;>
    simp_all [Advances, pipelineRank, schedStep]

/-- Witness for the amended C8 at `waiting` and `assignWorker`. -/
theorem sched_state_monotone_without_worker_loss_witness :
    pipelineRank .waiting ≠ none ∧
    Advances .waiting (schedStep .waiting .assignWorker) :=
  ⟨by decide,
    sched_state_monotone_without_worker_loss .waiting .assignWorker
      (by decide) ⟨by decide, by decide⟩⟩

/-! ## Suspicious-task blacklisting (spec §4.2)

No scheduler code exists in the repository, so the crash-counting blacklist
is modelled from the spec. -/

/-- Modelled from the spec: the configurable threshold of distinct crashed
workers after which a task is blacklisted; it defaults to 3. -/
def suspicionThreshold : Nat := 3

/-- Modelled from the spec: what the Scheduler tracks per task to blacklist
a bad function — its state and the distinct workers that crashed while
running it. -/
structure SuspectRecord where
  state : TState
  crashedWorkers : List Nat
  deriving DecidableEq, Repr

/-- Modelled from the spec: the per-task events relevant to blacklisting —
assignment to a worker, a worker crashing while the task runs on it, and
completion. -/
inductive CrashEvent
  | assign (w : Nat)
  | workerCrash (w : Nat)
  | finish
  deriving DecidableEq, Repr

/-- Modelled from the spec: one scheduler step of the blacklist machinery.
A crash of the worker running the task adds it to the distinct-crash set;
when that set reaches the threshold, the task is marked permanently
`error "suspicious-task"`, otherwise it is re-queued to be rescheduled.
An errored task is never assigned or rescheduled again. -/
def suspectStep (t : SuspectRecord) : CrashEvent → SuspectRecord
  | .assign _ =>
    if t.state = .waiting then { t with state := .processing } else t
  | .workerCrash w =>
    if t.state = .processing then
      let cw := if w ∈ t.crashedWorkers then t.crashedWorkers
                else w :: t.crashedWorkers
      if suspicionThreshold ≤ cw.length then
        { state := TState.error "suspicious-task", crashedWorkers := cw }
      else
        { state := .waiting, crashedWorkers := cw }
    else t
  | .finish =>
    if t.state = .processing then { t with state := .memory } else t

/-- Modelled from the spec: a task record driven by a sequence of
crash-related events. -/
def suspectSteps (t : SuspectRecord) (evs : List CrashEvent) : SuspectRecord :=
  evs.foldl suspectStep t

/-- A blacklisted task stays blacklisted: `error "suspicious-task"` is
absorbing for every event. -/
theorem suspect_error_absorbing (t : SuspectRecord)
    (h : t.state = TState.error "suspicious-task") :
    ∀ evs : List CrashEvent,
      (suspectSteps t evs).state = TState.error "suspicious-task" := by
  intro evs
  induction evs generalizing t with
  | nil => exact h
  | cons e rest ih =>
    have hstep : (suspectStep t e).state = TState.error "suspicious-task" := by
      cases e <;> simp [suspectStep, h]
    exact ih _ hstep

/-- C5: a fresh task that crashes three distinct workers (the configurable
`suspicionThreshold`) is marked permanently `error "suspicious-task"`; from
then on every event sequence leaves it in that error state, and in
particular it is never `processing` (never rescheduled) again. -/
theorem suspicious_task_blacklisted (w1 w2 w3 : Nat)
    (h12 : w1 ≠ w2) (h13 : w1 ≠ w3) (h23 : w2 ≠ w3) :
    (suspectSteps ⟨.waiting, []⟩
        [.assign w1, .workerCrash w1, .assign w2, .workerCrash w2,
          .assign w3, .workerCrash w3]).state
      = TState.error "suspicious-task" ∧
    (∀ (t : SuspectRecord) (evs : List CrashEvent),
      t.state = TState.error "suspicious-task" →
      (suspectSteps t evs).state = TState.error "suspicious-task" ∧
      (suspectSteps t evs).state ≠ .processing) := by
  constructor
  · simp [suspectSteps, suspectStep, suspicionThreshold,
      Ne.symm h12, Ne.symm h13, Ne.symm h23]
  · intro t evs h
    have habs := suspect_error_absorbing t h evs
    exact ⟨habs, by rw [habs]; exact fun hcontra => TState.noConfusion hcontra⟩

/-- Witness for C5 with workers 1, 2, 3. -/
theorem suspicious_task_blacklisted_witness :
    (1 ≠ 2) ∧
    (suspectSteps ⟨.waiting, []⟩
        [.assign 1, .workerCrash 1, .assign 2, .workerCrash 2,
          .assign 3, .workerCrash 3]).state
      = TState.error "suspicious-task" :=
  ⟨by decide,
    (suspicious_task_blacklisted 1 2 3
      (by decide) (by decide) (by decide)).1⟩

/-! ## Task errors and lazy propagation (spec §4.2, §7)

No scheduler/worker code exists in the repository (the notebooks only
demonstrate a failing `calculate(10).compute()`), so error settlement is
modelled from the spec. -/

/-- Modelled from the spec: the result channel of a task — a value, or a
tagged error variant carrying the original exception and its serialized
traceback string; errors cross process boundaries as data (§9), never as
language-native exceptions. -/
inductive TaskResult
  | ok (v : Int)
  | err (exc : String) (traceback : String)
  deriving DecidableEq, Repr

/-- Modelled from the spec: a submitted computation — a literal, or a task
applying a user function to the result of another task.  A user function
either returns a value or raises; the worker reports a raise as `err` with
the original exception and traceback. -/
inductive TaskExpr
  | lit (v : Int)
  | task (f : Int → TaskResult) (arg : TaskExpr)

/-- Modelled from the spec: the result a Future of this computation settles
to — what `.result()` (or `.gather()`) re-raises or returns.  A dependent
task is never auto-run when its dependency erred: the dependency's error
object propagates unchanged. -/
def settle : TaskExpr → TaskResult
  | .lit v => .ok v
  | .task f arg =>
    match settle arg with
    | .ok v => f v
    | .err e tb => .err e tb

/-- Modelled from the spec: the Scheduler settles a whole batch of
independently submitted tasks; each is settled independently of the
others, and settlement is a total function — an erring task never crashes
the Scheduler. -/
def settleBatch (batch : List TaskExpr) : List TaskResult :=
  batch.map settle

/-- C3: a task whose user function raises settles to an error carrying the
original exception and traceback, which `.result()` re-raises; a dependent
of an erred task is never auto-run (its settled result does not depend on
its own function) and reports the same error; the Scheduler settles every
task of every batch (no crash); and the unrelated tasks of the batch settle
exactly as they would alone. -/
theorem task_error_propagation (e tb : String) (x : Int)
    (g : Int → TaskResult) (arg : TaskExpr)
    (harg : settle arg = .err e tb) (others : List TaskExpr) :
    settle (.task (fun _ => .err e tb) (.lit x)) = .err e tb ∧
    settle (.task g arg) = .err e tb ∧
    (∀ g' : Int → TaskResult, settle (.task g' arg) = settle (.task g arg)) ∧
    settleBatch (.task g arg :: others) = .err e tb :: others.map settle ∧
    (∀ batch : List TaskExpr, (settleBatch batch).length = batch.length) := by
  have hdep : settle (TaskExpr.task g arg) = .err e tb := by
    simp [settle, harg]
  refine ⟨rfl, hdep, ?_, ?_, ?_⟩
  · intro g'
    simp [settle, harg]
  · simp [settleBatch, hdep]
  · intro batch
    simp [settleBatch]

/-- Witness for C3: `def f(): raise ValueError("boom")` submitted over a
literal, with a dependent `g` and one unrelated task that still completes
with its own value. -/
theorem task_error_propagation_witness :
    settle (.task (fun _ => .err "ValueError: boom" "tb") (.lit 1))
      = .err "ValueError: boom" "tb" ∧
    settleBatch
        [.task (fun v => .ok v)
          (.task (fun _ => .err "ValueError: boom" "tb") (.lit 1)),
         .task (fun v => .ok (v + 1)) (.lit 41)]
      = [.err "ValueError: boom" "tb", .ok 42] := by
  have h := task_error_propagation "ValueError: boom" "tb" 1
    (fun v => .ok v)
    (.task (fun _ => .err "ValueError: boom" "tb") (.lit 1))
    rfl
    [.task (fun v => .ok (v + 1)) (.lit 41)]
  exact ⟨h.1, by rw [h.2.2.2.1]; rfl⟩

/-! ## Worker loss and recomputation (spec §4.2 failure handling)

No scheduler code exists in the repository, so recovery is modelled from
the spec: every key keeps its recomputation recipe in the submitted graph,
results live in cluster memory tagged with the worker holding them
(`who_has`), and a lost key is re-derived from its recipe. -/

/-- Modelled from the spec: the recomputation recipe the Scheduler keeps for
a task key — a literal embedded in the graph, or a user function applied to
the value of a dependency key. -/
inductive Recipe
  | lit (v : Int)
  | app (f : Int → Int) (dep : String)

/-- Modelled from the spec: the task graph as submitted by the Client — each
key with its recipe.  The Client never resubmits it during recovery. -/
abbrev TaskGraph := List (String × Recipe)

/-- Look up the recipe registered for a key. -/
def lookupRecipe (g : TaskGraph) (k : String) : Option Recipe :=
  (g.find? (fun p => p.1 == k)).map Prod.snd

/-- Modelled from the spec: one cluster-memory entry — a key, its computed
value, and the worker holding it (its `who_has` entry). -/
structure MemEntry where
  key : String
  value : Int
  worker : Nat

/-- Modelled from the spec: the results currently held in cluster memory. -/
abbrev ClusterMemory := List MemEntry

/-- Fetch a key's value from whichever worker holds it, if any. -/
def memLookup (mem : ClusterMemory) (k : String) : Option Int :=
  (mem.find? (fun entry => entry.key == k)).map MemEntry.value

/-- Modelled from the spec: the intended value of each key — evaluation of
the graph recipes alone, with a recursion-depth fuel. -/
def denote (g : TaskGraph) : Nat → String → Option Int
  | 0, _ => none
  | fuel + 1, k =>
    match lookupRecipe g k with
    | none => none
    | some (.lit v) => some v
    | some (.app f d) => (denote g fuel d).map f

/-- Modelled from the spec: how the Scheduler obtains a key's value on
demand — fetch it from a worker in `who_has` when one still holds it,
otherwise automatically re-derive it from its recipe, recursively recovering
lost dependencies; the sub-chain is recomputed transitively. -/
def recover (g : TaskGraph) (mem : ClusterMemory) : Nat → String → Option Int
  | 0, _ => none
  | fuel + 1, k =>
    match memLookup mem k with
    | some v => some v
    | none =>
      match lookupRecipe g k with
      | none => none
      | some (.lit v) => some v
      | some (.app f d) => (recover g mem fuel d).map f

/-- Modelled from the spec: losing a worker (heartbeat timeout) drops every
memory entry it held; keys whose sole `who_has` entry it was are gone. -/
def loseWorker (mem : ClusterMemory) (w : Nat) : ClusterMemory :=
  mem.filter (fun entry => entry.worker != w)

/-- A cluster memory is consistent with the graph when every held value is
its key's denotation at some depth. -/
def ConsistentMem (g : TaskGraph) (mem : ClusterMemory) : Prop :=
  ∀ entry ∈ mem, ∃ fuel, denote g fuel entry.key = some entry.value

/-- Modelled from the spec: the end-to-end recovery scenario — submit
`a = f(1)`, `b = g(a)` (key `"one"` embeds the literal argument `1`). -/
def scenarioGraph (f g : Int → Int) : TaskGraph :=
  [("one", Recipe.lit 1), ("a", Recipe.app f "one"), ("b", Recipe.app g "a")]

/-- Denotation only grows with fuel. -/
theorem denote_mono (g : TaskGraph) :
    ∀ (fuel fuel' : Nat), fuel ≤ fuel' → ∀ (k : String) (v : Int),
      denote g fuel k = some v → denote g fuel' k = some v := by
  intro fuel
  induction fuel with
  | zero =>
    intro fuel' _ k v h
    simp [denote] at h
  | succ n ih =>
    intro fuel' hle k v h
    obtain ⟨m, rfl⟩ : ∃ m, fuel' = m + 1 := ⟨fuel' - 1, by omega⟩
    simp only [denote] at h ⊢
    split at h
    · exact absurd h (by simp)
    · next v' heq =>
      exact h
    · next f d heq =>
      obtain ⟨w, hw, hfw⟩ := Option.map_eq_some'.mp h
      show Option.map f (denote g m d) = some v
      exact Option.map_eq_some'.mpr ⟨w, ih m (by omega) d w hw, hfw⟩

/-- Denotation is deterministic across fuels. -/
theorem denote_det (g : TaskGraph) {f1 f2 : Nat} {k : String} {v v' : Int}
    (h1 : denote g f1 k = some v) (h2 : denote g f2 k = some v') : v = v' := by
  have h1' := denote_mono g f1 (max f1 f2) (le_max_left _ _) k v h1
  have h2' := denote_mono g f2 (max f1 f2) (le_max_right _ _) k v' h2
  rw [h1'] at h2'
  exact (Option.some.injEq _ _).mp h2'

/-- A successful memory fetch comes from an entry of the memory. -/
theorem memLookup_some (mem : ClusterMemory) (k : String) (v : Int)
    (h : memLookup mem k = some v) :
    ∃ entry ∈ mem, entry.key = k ∧ entry.value = v := by
  simp only [memLookup, Option.map_eq_some'] at h
  obtain ⟨entry, hfind, hval⟩ := h
  refine ⟨entry, List.mem_of_find?_eq_some hfind, ?_, hval⟩
  have hkey := List.find?_some hfind
  simpa using hkey

/-- On-demand recovery from a consistent memory reproduces every denotable
value: whatever the graph defines, `recover` returns. -/
theorem recover_complete (g : TaskGraph) (mem : ClusterMemory)
    (hcons : ConsistentMem g mem) :
    ∀ (fuel : Nat) (k : String) (v : Int),
      denote g fuel k = some v → recover g mem fuel k = some v := by
  intro fuel
  induction fuel with
  | zero =>
    intro k v h
    simp [denote] at h
  | succ n ih =>
    intro k v h
    simp only [recover]
    rcases hml : memLookup mem k with _ | w
    · have h' := h
      simp only [denote] at h'
      split at h'
      · exact absurd h' (by simp)
      · next v' heq =>
        exact h'
      · next f d heq =>
        obtain ⟨w, hw, hfw⟩ := Option.map_eq_some'.mp h'
        show Option.map f (recover g mem n d) = some v
        exact Option.map_eq_some'.mpr ⟨w, ih d w hw, hfw⟩
    · obtain ⟨entry, hmem, hkey, hval⟩ := memLookup_some mem k w hml
      obtain ⟨fuel', hden⟩ := hcons entry hmem
      rw [hkey, hval] at hden
      exact congrArg some (denote_det g hden h)

/-- Losing a worker only removes entries, so consistency is preserved. -/
theorem loseWorker_consistent (g : TaskGraph) (mem : ClusterMemory) (w : Nat)
    (hcons : ConsistentMem g mem) : ConsistentMem g (loseWorker mem w) :=
  fun entry hmem => hcons entry (List.mem_of_mem_filter hmem)

/-- C4: with a cluster memory consistent with the submitted graph, every
key the graph can denote is still obtained after losing any worker — the
Scheduler re-derives lost results from the unchanged graph, with no
resubmission; in particular, in the scenario `a = f(1)`, `b = g(a)`,
killing the worker holding `a` still makes `b.result()` return `g (f 1)`. -/
theorem worker_loss_recomputes (g : TaskGraph) (mem : ClusterMemory)
    (w : Nat) (hcons : ConsistentMem g mem) :
    (∀ (fuel : Nat) (k : String) (v : Int),
      denote g fuel k = some v →
      recover g (loseWorker mem w) fuel k = some v) ∧
    (∀ (f gg : Int → Int) (m2 : ClusterMemory) (wa : Nat),
      ConsistentMem (scenarioGraph f gg) m2 →
      recover (scenarioGraph f gg) (loseWorker m2 wa) 3 "b"
        = some (gg (f 1))) := by
  constructor
  · intro fuel k v h
    exact recover_complete g _ (loseWorker_consistent g mem w hcons) fuel k v h
  · intro f gg m2 wa hc2
    have hden : denote (scenarioGraph f gg) 3 "b" = some (gg (f 1)) := rfl
    exact recover_complete _ _
      (loseWorker_consistent _ m2 wa hc2) 3 "b" _ hden

/-- Witness for C4: `f = (· + 1)`, `g = (2 * ·)`; the sole copy of
`a = f(1) = 2` sits on worker 0; after losing worker 0, `b` still settles
to `g(f(1)) = 4`. -/
theorem worker_loss_recomputes_witness :
    ConsistentMem (scenarioGraph (fun x => x + 1) (fun x => 2 * x))
      [⟨"a", 2, 0⟩] ∧
    recover (scenarioGraph (fun x => x + 1) (fun x => 2 * x))
      (loseWorker [⟨"a", 2, 0⟩] 0) 3 "b" = some 4 := by
  have hc : ConsistentMem (scenarioGraph (fun x => x + 1) (fun x => 2 * x))
      [⟨"a", 2, 0⟩] := by
    intro entry hmem
    simp only [List.mem_singleton] at hmem
    subst hmem
    exact ⟨2, rfl⟩
  refine ⟨hc, ?_⟩
  have h := (worker_loss_recomputes
      (scenarioGraph (fun x => x + 1) (fun x => 2 * x)) [⟨"a", 2, 0⟩] 0 hc).2
      (fun x => x + 1) (fun x => 2 * x) [⟨"a", 2, 0⟩] 0 hc
  simpa using h

/-! ## Scatter (spec §4.1, §6)

No client/scheduler code exists in the repository (the notebooks only call
`client.scatter`), so `scatter` is modelled from the spec. -/

/-- Modelled from the spec: a worker as `scatter` sees it — its id, its free
core count, and its local store of scattered values (scatter key → stored
value). -/
structure ScatterWorker where
  wid : Nat
  freeCores : Nat
  store : List (Nat × Int)
  deriving DecidableEq, Repr

/-- Modelled from the spec: the weighted round-robin slot list — each worker
appears once per free core, so consecutive scattered items cycle through the
workers in proportion to their free core counts. -/
def coreSlots (ws : List ScatterWorker) : List Nat :=
  ws.flatMap (fun w => List.replicate w.freeCores w.wid)

/-- Modelled from the spec: the cluster as the Client's `scatter` sees it:
the workers, a count of tasks that went through task execution, and the
source of fresh keys for scattered values. -/
structure ScatterState where
  workers : List ScatterWorker
  tasksExecuted : Nat
  nextKey : Nat
  deriving DecidableEq, Repr

/-- Modelled from the spec: the target of the `i`-th scattered item —
position `i` of the weighted round-robin cycle. -/
def scatterTarget (ws : List ScatterWorker) (i : Nat) : Option Nat :=
  (coreSlots ws)[i % (coreSlots ws).length]?

/-- Push one value directly into the store of the worker with id `wid`. -/
def storeOn (ws : List ScatterWorker) (wid key : Nat) (v : Int) :
    List ScatterWorker :=
  ws.map (fun w =>
    if w.wid = wid then { w with store := (key, v) :: w.store } else w)

/-- Modelled from the spec: scatter the items of `data`, the `i`-th into the
`i`-th round-robin slot, each under a fresh key; returns the per-item Future
keys.  No task execution happens. -/
def scatterGo : ScatterState → Nat → List Int → ScatterState × List Nat
  | st, _, [] => (st, [])
  | st, i, v :: rest =>
    let key := st.nextKey
    let st' :=
      match scatterTarget st.workers i with
      | some wid =>
        { st with workers := storeOn st.workers wid key v, nextKey := key + 1 }
      | none => { st with nextKey := key + 1 }
    let next := scatterGo st' (i + 1) rest
    (next.1, key :: next.2)

/-- Modelled from the spec: `scatter(data, broadcast=False)` — push the
literal objects directly into workers' stores without task execution,
round-robin across workers weighted by free core count, returning Future
keys referring to the stored values. -/
def scatter (st : ScatterState) (data : List Int) : ScatterState × List Nat :=
  scatterGo st 0 data

/-- Modelled from the spec: `scatter(v, broadcast=True)` — replicate the
value to all workers under one fresh key, again without task execution. -/
def scatterBroadcast (st : ScatterState) (v : Int) : ScatterState × Nat :=
  ({ st with
      workers := st.workers.map
        (fun w => { w with store := (st.nextKey, v) :: w.store }),
      nextKey := st.nextKey + 1 },
    st.nextKey)

/-- Every round-robin slot names a wid of one of the workers. -/
theorem mem_coreSlots (ws : List ScatterWorker) (x : Nat)
    (h : x ∈ coreSlots ws) : ∃ w ∈ ws, w.wid = x := by
  simp only [coreSlots, List.mem_flatMap] at h
  obtain ⟨w, hw, hx⟩ := h
  exact ⟨w, hw, (List.eq_of_mem_replicate hx).symm⟩

/-- With distinct worker ids, each worker owns exactly `freeCores` slots of
the round-robin cycle. -/
theorem coreSlots_count (ws : List ScatterWorker)
    (hnd : (ws.map ScatterWorker.wid).Nodup) :
    ∀ w ∈ ws, (coreSlots ws).count w.wid = w.freeCores := by
  induction ws with
  | nil => intro w hw; cases hw
  | cons u rest ih =>
    intro w hw
    simp only [List.map_cons, List.nodup_cons] at hnd
    obtain ⟨hu, hnd'⟩ := hnd
    have hslots : coreSlots (u :: rest)
        = List.replicate u.freeCores u.wid ++ coreSlots rest := by
      simp [coreSlots]
    rcases List.mem_cons.mp hw with rfl | hw'
    · rw [hslots, List.count_append, List.count_replicate_self]
      have hzero : (coreSlots rest).count w.wid = 0 := by
        rw [List.count_eq_zero]
        intro hmem
        obtain ⟨w', hw', hwid⟩ := mem_coreSlots rest _ hmem
        exact hu (hwid ▸ List.mem_map_of_mem ScatterWorker.wid hw')
      rw [hzero]
      exact Nat.add_zero _
    · rw [hslots, List.count_append]
      have hne : u.wid ≠ w.wid := by
        intro hEq
        exact hu (hEq ▸ List.mem_map_of_mem ScatterWorker.wid hw')
      rw [List.count_replicate]
      simp only [beq_iff_eq, if_neg hne, Nat.zero_add]
      exact ih hnd' w hw'

/-- A successful round-robin target is the wid of one of the workers. -/
theorem scatterTarget_mem (ws : List ScatterWorker) (i wid : Nat)
    (h : scatterTarget ws i = some wid) : ∃ w ∈ ws, w.wid = wid :=
  mem_coreSlots ws wid (List.getElem?_mem h)

/-- Storing on a present wid leaves some worker with that wid holding the
key/value pair. -/
theorem storeOn_stores (ws : List ScatterWorker) (wid key : Nat) (v : Int)
    (h : ∃ w ∈ ws, w.wid = wid) :
    ∃ u ∈ storeOn ws wid key v, u.wid = wid ∧ (key, v) ∈ u.store := by
  obtain ⟨w, hw, hwid⟩ := h
  refine ⟨{ w with store := (key, v) :: w.store }, ?_, hwid,
    List.mem_cons_self _ _⟩
  have hfw : ({ w with store := (key, v) :: w.store } : ScatterWorker)
      = (fun w => if w.wid = wid
          then { w with store := (key, v) :: w.store } else w) w := by
    simp [hwid]
  rw [storeOn, hfw]
  exact List.mem_map_of_mem _ hw

/-- Scatter never runs anything through task execution. -/
theorem scatterGo_tasksExecuted :
    ∀ (data : List Int) (st : ScatterState) (i : Nat),
      (scatterGo st i data).1.tasksExecuted = st.tasksExecuted := by
  intro data
  induction data with
  | nil => intro st i; rfl
  | cons v rest ih =>
    intro st i
    simp only [scatterGo]
    cases scatterTarget st.workers i <;> simp [ih]

/-- C6: `scatter(data, broadcast=False)` runs no task execution; with
distinct worker ids, the weighted round-robin cycle gives each worker
exactly `freeCores` slots; scattering a single value stores it directly in
the store of the round-robin target worker under the returned Future key;
and `broadcast=True` replicates the value to all workers (also without task
execution). -/
theorem scatter_placement (st : ScatterState) (v : Int) (data : List Int) :
    ((scatter st data).1.tasksExecuted = st.tasksExecuted ∧
      (scatterBroadcast st v).1.tasksExecuted = st.tasksExecuted) ∧
    ((st.workers.map ScatterWorker.wid).Nodup →
      ∀ w ∈ st.workers, (coreSlots st.workers).count w.wid = w.freeCores) ∧
    (∀ wid : Nat, scatterTarget st.workers 0 = some wid →
      (scatter st [v]).2 = [st.nextKey] ∧
      ∃ u ∈ (scatter st [v]).1.workers,
        u.wid = wid ∧ (st.nextKey, v) ∈ u.store) ∧
    (∀ u ∈ (scatterBroadcast st v).1.workers, (st.nextKey, v) ∈ u.store) := by
  refine ⟨⟨scatterGo_tasksExecuted data st 0, rfl⟩, ?_, ?_, ?_⟩
  · exact coreSlots_count st.workers
  · intro wid hwid
    constructor
    · simp [scatter, scatterGo, hwid]
    · have hws : (scatter st [v]).1.workers
          = storeOn st.workers wid st.nextKey v := by
        simp [scatter, scatterGo, hwid]
      rw [hws]
      exact storeOn_stores st.workers wid st.nextKey v
        (scatterTarget_mem st.workers 0 wid hwid)
  · intro u hu
    simp only [scatterBroadcast, List.mem_map] at hu
    obtain ⟨w, _, rfl⟩ := hu
    exact List.mem_cons_self _ _

/-- Witness for C6: two workers with 2 and 1 free cores; the slot cycle is
`[0, 0, 1]`, a single scattered `7` lands on worker 0 under key 10, and a
broadcast lands on both workers. -/
theorem scatter_placement_witness :
    (([⟨0, 2, []⟩, ⟨1, 1, []⟩] : List ScatterWorker).map
        ScatterWorker.wid).Nodup ∧
    (coreSlots [⟨0, 2, []⟩, ⟨1, 1, []⟩]).count 0 = 2 ∧
    scatterTarget [⟨0, 2, []⟩, ⟨1, 1, []⟩] 0 = some 0 ∧
    (scatter ⟨[⟨0, 2, []⟩, ⟨1, 1, []⟩], 0, 10⟩ [7]).2 = [10] ∧
    (∃ u ∈ (scatter ⟨[⟨0, 2, []⟩, ⟨1, 1, []⟩], 0, 10⟩ [7]).1.workers,
      u.wid = 0 ∧ (10, 7) ∈ u.store) := by
  have hnd : (([⟨0, 2, []⟩, ⟨1, 1, []⟩] : List ScatterWorker).map
      ScatterWorker.wid).Nodup := by decide
  have htgt : scatterTarget [⟨0, 2, []⟩, ⟨1, 1, []⟩] 0 = some 0 := by decide
  have h := scatter_placement ⟨[⟨0, 2, []⟩, ⟨1, 1, []⟩], 0, 10⟩ 7 [7]
  refine ⟨hnd, ?_, htgt, (h.2.2.1 0 htgt).1, (h.2.2.1 0 htgt).2⟩
  exact h.2.1 hnd ⟨0, 2, []⟩ (by decide)
